import Mathlib

/-!
# Verification of the bevy-mixamo character loading pipeline

Shallow embedding of the core asset-loading / activation pipeline of
`src/main.rs` and `src/asset_event_bridge.rs`:

* `bridge_asset_events` — converts the asset lifecycle event stream into
  one `AssetLoadedEvent` per `LoadedWithDependencies` transition;
* `CharacterData.model_scene_path` / `CharacterData.animation_path` —
  locator derivation;
* `setup` (registration essence, `register`), `on_character_data_loaded`
  (the loading orchestrator) and `start_idle` (the scene-ready activator),
  modelled as explicit state transformers over a `World` record.

Rust `HashMap`s are modelled as association lists with replace-on-insert
semantics (`ainsert` / `alookup`); asset handles are modelled by the
locator string that produced them (Bevy's asset server dedupes loads by
path, so the path is the asset identity); `Assets<AnimationGraph>::add`
allocates a fresh numeric handle from a counter, mirroring the fresh
handle Bevy returns on every `add`.  Fallible handler code (the `unwrap`
calls) is modelled with `Except`: each `unwrap` becomes the error the
specification names for it, raised at the same program point (before any
of the state mutations that follow it in the Rust source).
-/

/-- Association-list lookup, the model of `HashMap::get`. -/
def alookup {κ : Type} {β : Type} [DecidableEq κ] (k : κ) : List (κ × β) → Option β
  | [] => none
  | (k₁, v) :: rest => if k₁ = k then some v else alookup k rest

/-- Association-list insert with replace-on-collision, the model of
`HashMap::insert` (key set grows by at most `k`; an existing binding of
`k` is overwritten in place). -/
def ainsert {κ : Type} {β : Type} [DecidableEq κ] (k : κ) (v : β) :
    List (κ × β) → List (κ × β)
  | [] => [(k, v)]
  | (k₁, v₁) :: rest => if k₁ = k then (k, v) :: rest else (k₁, v₁) :: ainsert k v rest

/-- `CharacterData` (src/main.rs): the deserialized character definition
asset.  `animation_paths` is a map from animation name to base resource
path; in Rust it is a `HashMap` so its keys are distinct. -/
structure CharacterData where
  id : String
  model_path : String
  animation_paths : List (String × String)
deriving DecidableEq, Repr

/-- `CharacterData::model_scene_path` (src/main.rs):
`format!("{}#Scene0", self.model_path)`. -/
def CharacterData.model_scene_path (cd : CharacterData) : String :=
  cd.model_path ++ "#Scene0"

/-- `CharacterData::animation_path` (src/main.rs):
`format!("{}#Animation0", self.animation_paths[name])`.  The Rust index
panics when `name` is not a key; we totalize with `Option`, so the
in-bounds behaviour is `some (path ++ "#Animation0")`. -/
def CharacterData.animation_path (cd : CharacterData) (name : String) : Option String :=
  (alookup name cd.animation_paths).map (fun p => p ++ "#Animation0")

/-- A node of an `AnimationGraph`: the implicit blend root Bevy creates,
or a clip node wrapping a clip handle (modelled by the clip locator). -/
inductive AnimationNode where
  | blend : AnimationNode
  | clipNode (clip : String) : AnimationNode
deriving DecidableEq, Repr

/-- An animation graph: its list of nodes, indexed by position. -/
structure AnimationGraph where
  nodes : List AnimationNode
deriving DecidableEq, Repr

/-- `AnimationGraph::from_clip`: builds a graph whose root blend node has
index 0 and whose single clip node has index 1, and returns that clip
node's index — construction is synchronous and never consults the clip
asset itself, only the handle. -/
def AnimationGraph.from_clip (clip : String) : AnimationGraph × Nat :=
  (⟨[AnimationNode.blend, AnimationNode.clipNode clip]⟩, 1)

/-- `Character` (src/main.rs): registry record holding the definition
handle (modelled by the definition's locator/asset id string) and the
map from animation name to (graph handle, node index). -/
structure Character where
  data : String
  animations : List (String × (Nat × Nat))
deriving DecidableEq, Repr

/-- Which kind of asset a `load` request was issued for; ghost metadata
used only to state the registry invariant ("a record exists before any
dependent — model or clip — load is issued"). -/
inductive LoadKind where
  | definitionKind : LoadKind
  | model : LoadKind
  | clip : LoadKind
deriving DecidableEq, Repr

/-- One `asset_server.load(path)` call: the kind, the character id the
load belongs to (ghost), and the locator path passed to the server. -/
structure LoadReq where
  kind : LoadKind
  forId : String
  path : String
deriving DecidableEq, Repr

/-- The pipeline errors of the specification's taxonomy, plus
`MissingModel` for the `character_models.get(..).unwrap()` at the top of
`start_idle` (a component lookup, not an asset resolve). -/
inductive PipelineError where
  | MissingAsset : PipelineError
  | UnregisteredCharacter : PipelineError
  | AnimationNotFound : PipelineError
  | MissingModel : PipelineError
deriving DecidableEq, Repr

/-- The world state the pipeline's handlers read and write:
* `assets` — resolvable `CharacterData` assets, keyed by asset id
  (the load path);
* `characters` — the `Characters` registry resource;
* `issuedLoads` — every `asset_server.load` call, in issue order;
* `graphs` / `nextGraph` — the `Assets<AnimationGraph>` store and its
  fresh-handle counter;
* `scenes` / `nextEntity` — spawned scene roots carrying their
  `CharacterModel` back-reference (the definition handle second owner);
* `children` — the entity hierarchy the scene-instantiation collaborator
  fills in;
* `players` — entities carrying an `AnimationPlayer`;
* `attached` — `AnimationGraphHandle` components inserted by the
  activator;
* `playing` — playback state set by `player.play(index).repeat()`:
  entity to (node index, repeating). -/
structure World where
  assets : List (String × CharacterData)
  characters : List (String × Character)
  issuedLoads : List LoadReq
  graphs : List (Nat × AnimationGraph)
  nextGraph : Nat
  scenes : List (Nat × String)
  nextEntity : Nat
  children : List (Nat × List Nat)
  players : List Nat
  attached : List (Nat × Nat)
  playing : List (Nat × (Nat × Bool))
deriving DecidableEq, Repr

/-- The empty initial world. -/
def World.empty : World :=
  ⟨[], [], [], [], 0, [], 0, [], [], [], []⟩

/-- `asset_server.load(path)`: records the request (the server itself
dedupes by path, so the asset identity of the request is its path). -/
def World.issueLoad (w : World) (r : LoadReq) : World :=
  { w with issuedLoads := w.issuedLoads ++ [r] }

/-- `animation_graphs.add(graph)`: stores the graph under a fresh handle
and returns it. -/
def World.addGraph (w : World) (g : AnimationGraph) : World × Nat :=
  ({ w with graphs := ainsert w.nextGraph g w.graphs, nextGraph := w.nextGraph + 1 },
   w.nextGraph)

/-- `commands.spawn((SceneRoot(model), .., CharacterModel(data)))`:
spawns a fresh scene-root entity carrying the definition handle
back-reference, with the `start_idle` observer attached. -/
def World.spawnScene (w : World) (dataHandle : String) : World :=
  { w with scenes := (w.nextEntity, dataHandle) :: w.scenes,
           nextEntity := w.nextEntity + 1 }

/-- `AssetEvent` (Bevy): lifecycle notifications for assets of one kind;
asset ids modelled as `Nat`. -/
inductive AssetEvent where
  | added (id : Nat) : AssetEvent
  | modified (id : Nat) : AssetEvent
  | removed (id : Nat) : AssetEvent
  | unused (id : Nat) : AssetEvent
  | loadedWithDependencies (id : Nat) : AssetEvent
deriving DecidableEq, Repr

/-- The loop body of `bridge_asset_events` (src/asset_event_bridge.rs):
walks the event stream in order, and for each `LoadedWithDependencies`
event appends one `commands.trigger(AssetLoadedEvent(id))` to the
command queue; all other variants fall through the `if let`. -/
def bridgeLoop : List AssetEvent → List Nat → List Nat
  | [], commands => commands
  | AssetEvent.loadedWithDependencies id :: rest, commands =>
      bridgeLoop rest (commands ++ [id])
  | AssetEvent.added _ :: rest, commands => bridgeLoop rest commands
  | AssetEvent.modified _ :: rest, commands => bridgeLoop rest commands
  | AssetEvent.removed _ :: rest, commands => bridgeLoop rest commands
  | AssetEvent.unused _ :: rest, commands => bridgeLoop rest commands

/-- `bridge_asset_events` (src/asset_event_bridge.rs): one run of the
bridge system over the events read this tick; the result is the list of
triggered `AssetLoadedEvent` asset ids, in emission order. -/
def bridge_asset_events (events : List AssetEvent) : List Nat :=
  bridgeLoop events []

/-- The id projection of a `LoadedWithDependencies` event; the spec's
characterization of what the bridge keeps. -/
def lwdId : AssetEvent → Option Nat
  | AssetEvent.loadedWithDependencies id => some id
  | _ => none

/-- The registration essence of `setup` (src/main.rs): issue the
definition load (`asset_server.load::<CharacterData>(dataPath)`), then
insert a record holding the returned handle and an empty animation map
into the `Characters` registry. -/
def register (w : World) (cid : String) (dataPath : String) : World :=
  let w₁ := w.issueLoad ⟨LoadKind.definitionKind, cid, dataPath⟩
  { w₁ with characters := ainsert cid ⟨dataPath, []⟩ w₁.characters }

/-- The `for animation_name in character_data.animations()` loop of
`on_character_data_loaded` (src/main.rs), iterating the map's
(name, path) pairs: derive the clip locator `path ++ "#Animation0"`
(what `animation_path` returns for a key of the map), issue the clip
load, build the graph synchronously with `AnimationGraph::from_clip`
around the (possibly unresolved) clip handle, `add` it to the graph
assets, and insert `(name, (graph_handle, node_index))` into the
record, immediately and without waiting for the clip to load. -/
def loadAnims (cid : String) : List (String × String) → World × Character → World × Character
  | [], wc => wc
  | (name, path) :: rest, (w, c) =>
      let clipPath := path ++ "#Animation0"
      let w₁ := w.issueLoad ⟨LoadKind.clip, cid, clipPath⟩
      let gi := AnimationGraph.from_clip clipPath
      let wg := w₁.addGraph gi.1
      loadAnims cid rest
        (wg.1, { c with animations := ainsert name (wg.2, gi.2) c.animations })

/-- The mutation part of `on_character_data_loaded` after both lookups
succeeded: issue the model scene load (locator `model_scene_path`),
spawn the scene root carrying the definition handle back-reference, then
run the animation loop.  Returns the final world (record not yet written
back) and the updated record. -/
def ocdlLoaded (w : World) (cd : CharacterData) (ch : Character) : World × Character :=
  loadAnims cd.id cd.animation_paths
    ((w.issueLoad ⟨LoadKind.model, cd.id, cd.model_scene_path⟩).spawnScene ch.data, ch)

/-- The success result of `on_character_data_loaded`: the updated record
written back into the registry (the Rust code mutates it in place via
`get_mut`; writing it back at the end is observationally the same within
the single, non-interleaved handler run). -/
def ocdlResult (w : World) (cd : CharacterData) (ch : Character) : World :=
  { (ocdlLoaded w cd ch).1 with
    characters := ainsert cd.id (ocdlLoaded w cd ch).2 (ocdlLoaded w cd ch).1.characters }

/-- `on_character_data_loaded` (src/main.rs), the loading orchestrator.
`character_datum.get(event.0).unwrap()` becomes `MissingAsset` and
`characters.0.get_mut(&character_data.id).unwrap()` becomes
`UnregisteredCharacter`, each raised before any state mutation, exactly
as the Rust panics fire before any command is queued. -/
def on_character_data_loaded (w : World) (assetId : String) : Except PipelineError World :=
  match alookup assetId w.assets with
  | none => Except.error PipelineError.MissingAsset
  | some cd =>
    match alookup cd.id w.characters with
    | none => Except.error PipelineError.UnregisteredCharacter
    | some ch => Except.ok (ocdlResult w cd ch)

/-- Children of an entity in the instantiated hierarchy (the `Children`
query). -/
def World.childrenOf (w : World) (e : Nat) : List Nat :=
  (alookup e w.children).getD []

/-- Breadth-first worklist traversal: pop the front of the queue, yield
it, push its children at the back — the shape of Bevy's
`iter_descendants`.  `fuel` is a termination device only; it is chosen
large enough to drain any acyclic hierarchy. -/
def descend (w : World) : Nat → List Nat → List Nat
  | 0, _ => []
  | _ + 1, [] => []
  | fuel + 1, e :: queue => e :: descend w fuel (queue ++ w.childrenOf e)

/-- `children.iter_descendants(root)`: the collaborator's native
traversal order — breadth-first, root excluded, starting from the
root's children. -/
def World.descendants (w : World) (root : Nat) : List Nat :=
  descend w ((w.children.map (fun p => p.2.length)).sum + (w.childrenOf root).length + 1)
    (w.childrenOf root)

/-- The `for child in children.iter_descendants(..)` loop of
`start_idle` (src/main.rs): skip entities without an `AnimationPlayer`;
at the first entity that has one, look up the record
(`characters.0.get(id).unwrap()` → `UnregisteredCharacter`) and its
"idle" entry (`.animations.get("idle").unwrap()` → `AnimationNotFound`),
then `player.play(index).repeat()` and insert the
`AnimationGraphHandle`, and `break`.  Falling off the end of the loop is
the silent `NoPlaybackNodeFound` no-op. -/
def start_idle_loop (w : World) (cid : String) : List Nat → Except PipelineError World
  | [] => Except.ok w
  | e :: rest =>
      if w.players.contains e then
        match alookup cid w.characters with
        | none => Except.error PipelineError.UnregisteredCharacter
        | some ch =>
          match alookup "idle" ch.animations with
          | none => Except.error PipelineError.AnimationNotFound
          | some gi =>
            Except.ok { w with playing := ainsert e (gi.2, true) w.playing,
                               attached := ainsert e gi.1 w.attached }
      else start_idle_loop w cid rest

/-- `start_idle` (src/main.rs), the scene-ready activator.
`character_models.get(scene_ready.entity).unwrap()` becomes
`MissingModel`; `character_datum.get(&character_model.0).unwrap()`
becomes `MissingAsset`; then the descendant loop runs. -/
def start_idle (w : World) (root : Nat) : Except PipelineError World :=
  match alookup root w.scenes with
  | none => Except.error PipelineError.MissingModel
  | some dataHandle =>
    match alookup dataHandle w.assets with
    | none => Except.error PipelineError.MissingAsset
    | some cd => start_idle_loop w cd.id (w.descendants root)

/-- The operations that drive the pipeline: the app's own handlers
(`register`, `dataLoaded`, `sceneReady`) and the external collaborators'
effects (an asset becoming resolvable, the scene instantiation filling
in hierarchy and `AnimationPlayer` components). -/
inductive Op where
  | register (cid : String) (dataPath : String) : Op
  | assetResolved (path : String) (cd : CharacterData) : Op
  | dataLoaded (assetId : String) : Op
  | sceneReady (root : Nat) : Op
  | attachChildren (e : Nat) (cs : List Nat) : Op
  | addPlayer (e : Nat) : Op

/-- One step of the pipeline: a handler that aborts (panics before
queueing any command) leaves the world unchanged. -/
def applyOp (op : Op) (w : World) : World :=
  match op with
  | Op.register cid p => register w cid p
  | Op.assetResolved p cd => { w with assets := ainsert p cd w.assets }
  | Op.dataLoaded id => ((on_character_data_loaded w id).toOption).getD w
  | Op.sceneReady root => ((start_idle w root).toOption).getD w
  | Op.attachChildren e cs => { w with children := ainsert e cs w.children }
  | Op.addPlayer e => { w with players := e :: w.players }

/-- Worlds reachable by the pipeline from the empty initial world. -/
inductive Reachable : World → Prop where
  | init : Reachable World.empty
  | step (op : Op) {w : World} : Reachable w → Reachable (applyOp op w)

theorem alookup_ainsert_self {κ β : Type} [DecidableEq κ] (k : κ) (v : β)
    (l : List (κ × β)) : alookup k (ainsert k v l) = some v := by
  induction l with
  | nil => simp [ainsert, alookup]
  | cons hd tl ih =>
    obtain ⟨k₁, v₁⟩ := hd
    by_cases h : k₁ = k
    · subst h; simp [ainsert, alookup]
    · simp [ainsert, alookup, h, ih]

theorem alookup_ainsert_ne {κ β : Type} [DecidableEq κ] {k k₁ : κ} (v : β)
    (l : List (κ × β)) (h : k₁ ≠ k) :
    alookup k (ainsert k₁ v l) = alookup k l := by
  induction l with
  | nil => simp [ainsert, alookup, h]
  | cons hd tl ih =>
    obtain ⟨k₂, v₂⟩ := hd
    by_cases h₂ : k₂ = k₁
    · subst h₂; simp [ainsert, alookup, h]
    · by_cases h₃ : k₂ = k
      · subst h₃; simp [ainsert, alookup, h₂]
      · simp [ainsert, alookup, h₂, h₃, ih]

theorem isSome_alookup_ainsert {κ β : Type} [DecidableEq κ] (k k₁ : κ) (v : β)
    (l : List (κ × β)) :
    (alookup k (ainsert k₁ v l)).isSome = true ↔
      k = k₁ ∨ (alookup k l).isSome = true := by
  by_cases h : k = k₁
  · subst h; simp [alookup_ainsert_self]
  · rw [alookup_ainsert_ne v l (fun hk => h hk.symm)]
    simp [h]

theorem length_ainsert_of_none {κ β : Type} [DecidableEq κ] {k : κ} (v : β)
    {l : List (κ × β)} (h : alookup k l = none) :
    (ainsert k v l).length = l.length + 1 := by
  induction l with
  | nil => simp [ainsert]
  | cons hd tl ih =>
    obtain ⟨k₁, v₁⟩ := hd
    by_cases h₁ : k₁ = k
    · subst h₁; simp [alookup] at h
    · simp [alookup, h₁] at h
      simp [ainsert, h₁, ih h]

theorem bridgeLoop_eq (events : List AssetEvent) (commands : List Nat) :
    bridgeLoop events commands = commands ++ events.filterMap lwdId := by
  induction events generalizing commands with
  | nil => simp [bridgeLoop]
  | cons e rest ih =>
    cases e with
    | added id => simp [bridgeLoop, lwdId, ih]
    | modified id => simp [bridgeLoop, lwdId, ih]
    | removed id => simp [bridgeLoop, lwdId, ih]
    | unused id => simp [bridgeLoop, lwdId, ih]
    | loadedWithDependencies id => simp [bridgeLoop, lwdId, ih]

/-- C1: for every character definition, the derived model scene locator is
`model_path ++ "#Scene0"`, and for every key of `animation_paths` the
derived clip locator is the mapped path ++ `"#Animation0"` (bit-exact
string equality). -/
theorem c1_locator_derivation (cd : CharacterData) :
    cd.model_scene_path = cd.model_path ++ "#Scene0" ∧
    ∀ name p, alookup name cd.animation_paths = some p →
      cd.animation_path name = some (p ++ "#Animation0") := by
  refine ⟨rfl, ?_⟩
  intro name p h
  simp [CharacterData.animation_path, h]

/-- Witness for C1 at a concrete definition. -/
theorem c1_locator_derivation_witness :
    (⟨"m", "models/x", [("idle", "anims/i")]⟩ : CharacterData).model_scene_path
        = "models/x" ++ "#Scene0" ∧
    (⟨"m", "models/x", [("idle", "anims/i")]⟩ : CharacterData).animation_path "idle"
        = some ("anims/i" ++ "#Animation0") :=
  ⟨(c1_locator_derivation _).1,
   (c1_locator_derivation _).2 "idle" "anims/i" (by decide)⟩

/-- C5: one run of the bridge over an event stream emits exactly one
`AssetLoadedEvent` (carrying the asset id) per `LoadedWithDependencies`
event, in stream order, and emits nothing for added, modified, removed
or unused events — i.e. the output is the stream's `filterMap` along
`lwdId`. -/
theorem c5_bridge_one_event_per_load (events : List AssetEvent) :
    bridge_asset_events events = events.filterMap lwdId := by
  simpa using bridgeLoop_eq events []

theorem alookup_mem {κ β : Type} [DecidableEq κ] {k : κ} {v : β} {l : List (κ × β)}
    (h : alookup k l = some v) : (k, v) ∈ l := by
  induction l with
  | nil => simp [alookup] at h
  | cons hd tl ih =>
    obtain ⟨k₁, v₁⟩ := hd
    by_cases h₁ : k₁ = k
    · subst h₁; simp [alookup] at h; simp [h]
    · simp [alookup, h₁] at h
      simp [ih h]

theorem mem_ainsert {κ β : Type} [DecidableEq κ] {k : κ} {v : β} {q : κ × β}
    {l : List (κ × β)} (h : q ∈ ainsert k v l) : q = (k, v) ∨ q ∈ l := by
  induction l with
  | nil => simpa [ainsert] using h
  | cons hd tl ih =>
    obtain ⟨k₁, v₁⟩ := hd
    by_cases h₁ : k₁ = k
    · subst h₁; simp [ainsert] at h; tauto
    · simp [ainsert, h₁] at h
      rcases h with h | h
      · simp [h]
      · rcases ih h with h | h <;> simp [h]

/-- Shorthand for the clip load request the animation loop issues for one
`(name, path)` pair of the definition's map. -/
def clipReq (cid : String) (np : String × String) : LoadReq :=
  ⟨LoadKind.clip, cid, np.2 ++ "#Animation0"⟩

theorem loadAnims_frame (cid : String) (l : List (String × String)) (w : World)
    (c : Character) :
    (loadAnims cid l (w, c)).1.assets = w.assets ∧
    (loadAnims cid l (w, c)).1.characters = w.characters ∧
    (loadAnims cid l (w, c)).1.scenes = w.scenes ∧
    (loadAnims cid l (w, c)).1.nextEntity = w.nextEntity ∧
    (loadAnims cid l (w, c)).1.children = w.children ∧
    (loadAnims cid l (w, c)).1.players = w.players ∧
    (loadAnims cid l (w, c)).1.attached = w.attached ∧
    (loadAnims cid l (w, c)).1.playing = w.playing ∧
    (loadAnims cid l (w, c)).2.data = c.data := by
  induction l generalizing w c with
  | nil => simp [loadAnims]
  | cons hd tl ih =>
    obtain ⟨n, p⟩ := hd
    simpa [loadAnims, World.issueLoad, World.addGraph] using ih _ _

theorem loadAnims_issuedLoads (cid : String) (l : List (String × String)) (w : World)
    (c : Character) :
    (loadAnims cid l (w, c)).1.issuedLoads = w.issuedLoads ++ l.map (clipReq cid) := by
  induction l generalizing w c with
  | nil => simp [loadAnims]
  | cons hd tl ih =>
    obtain ⟨n, p⟩ := hd
    simp [loadAnims, World.issueLoad, World.addGraph, ih, clipReq]

theorem loadAnims_nextGraph (cid : String) (l : List (String × String)) (w : World)
    (c : Character) :
    (loadAnims cid l (w, c)).1.nextGraph = w.nextGraph + l.length := by
  induction l generalizing w c with
  | nil => simp [loadAnims]
  | cons hd tl ih =>
    obtain ⟨n, p⟩ := hd
    simp [loadAnims, World.issueLoad, World.addGraph, ih]
    omega

theorem loadAnims_alookup_graphs (cid : String) (l : List (String × String)) (w : World)
    (c : Character) {g : Nat} {G : AnimationGraph}
    (hlt : g < w.nextGraph) (hg : alookup g w.graphs = some G) :
    alookup g (loadAnims cid l (w, c)).1.graphs = some G := by
  induction l generalizing w c with
  | nil => simpa [loadAnims] using hg
  | cons hd tl ih =>
    obtain ⟨n, p⟩ := hd
    simp only [loadAnims, World.issueLoad, World.addGraph]
    exact ih _ _ (by simp; omega)
      (by simpa [alookup_ainsert_ne _ _ (by omega : w.nextGraph ≠ g)] using hg)

theorem loadAnims_bound (cid : String) (l : List (String × String)) (w : World)
    (c : Character) (hbound : ∀ q ∈ w.graphs, q.1 < w.nextGraph) :
    ∀ q ∈ (loadAnims cid l (w, c)).1.graphs, q.1 < (loadAnims cid l (w, c)).1.nextGraph := by
  induction l generalizing w c with
  | nil => simpa [loadAnims] using hbound
  | cons hd tl ih =>
    obtain ⟨n, p⟩ := hd
    simp only [loadAnims, World.issueLoad, World.addGraph]
    apply ih
    intro q hq
    rcases mem_ainsert hq with h | h
    · simp [h]
    · simp
      exact Nat.lt_succ_of_lt (hbound q h)

theorem loadAnims_isSome_animations (cid : String) (l : List (String × String)) (w : World)
    (c : Character) (n : String) :
    (alookup n (loadAnims cid l (w, c)).2.animations).isSome = true ↔
      n ∈ l.map Prod.fst ∨ (alookup n c.animations).isSome = true := by
  induction l generalizing w c with
  | nil => simp [loadAnims]
  | cons hd tl ih =>
    obtain ⟨nm, p⟩ := hd
    simp only [loadAnims, World.issueLoad, World.addGraph]
    rw [ih]
    simp [isSome_alookup_ainsert]
    tauto

theorem loadAnims_alookup_animations_not_mem (cid : String) (l : List (String × String))
    (w : World) (c : Character) {n : String} (h : n ∉ l.map Prod.fst) :
    alookup n (loadAnims cid l (w, c)).2.animations = alookup n c.animations := by
  induction l generalizing w c with
  | nil => simp [loadAnims]
  | cons hd tl ih =>
    obtain ⟨nm, p⟩ := hd
    simp only [List.map_cons, List.mem_cons, not_or] at h
    simp only [loadAnims, World.issueLoad, World.addGraph]
    rw [ih _ _ h.2]
    exact alookup_ainsert_ne _ _ (fun he => h.1 he.symm)

theorem loadAnims_mem_animations (cid : String) (l : List (String × String)) (w : World)
    (c : Character) {n p : String}
    (hnd : (l.map Prod.fst).Nodup) (hmem : (n, p) ∈ l) :
    ∃ gh, alookup n (loadAnims cid l (w, c)).2.animations = some (gh, 1) ∧
      alookup gh (loadAnims cid l (w, c)).1.graphs =
        some ⟨[AnimationNode.blend, AnimationNode.clipNode (p ++ "#Animation0")]⟩ := by
  induction l generalizing w c with
  | nil => cases hmem
  | cons hd tl ih =>
    obtain ⟨nm, q⟩ := hd
    simp only [List.map_cons, List.nodup_cons] at hnd
    rcases List.mem_cons.mp hmem with heq | hmem
    · obtain ⟨rfl, rfl⟩ := Prod.mk.injEq .. ▸ heq
      refine ⟨w.nextGraph, ?_, ?_⟩
      · simp only [loadAnims, World.issueLoad, World.addGraph]
        rw [loadAnims_alookup_animations_not_mem _ _ _ _ hnd.1]
        exact alookup_ainsert_self _ _ _
      · simp only [loadAnims, World.issueLoad, World.addGraph]
        apply loadAnims_alookup_graphs
        · simp
        · simpa [AnimationGraph.from_clip] using alookup_ainsert_self w.nextGraph _ w.graphs
    · simp only [loadAnims, World.issueLoad, World.addGraph]
      exact ih _ _ hnd.2 hmem

theorem loadAnims_animations_valid (cid : String) (l : List (String × String)) (w : World)
    (c : Character)
    (hbound : ∀ q ∈ w.graphs, q.1 < w.nextGraph)
    (hvalid : ∀ n gh idx, alookup n c.animations = some (gh, idx) →
      ∃ g, alookup gh w.graphs = some g ∧ idx < g.nodes.length) :
    ∀ n gh idx, alookup n (loadAnims cid l (w, c)).2.animations = some (gh, idx) →
      ∃ g, alookup gh (loadAnims cid l (w, c)).1.graphs = some g ∧ idx < g.nodes.length := by
  induction l generalizing w c with
  | nil => simpa [loadAnims] using hvalid
  | cons hd tl ih =>
    obtain ⟨nm, q⟩ := hd
    simp only [loadAnims, World.issueLoad, World.addGraph]
    apply ih
    · intro x hx
      rcases mem_ainsert hx with h | h
      · simp [h]
      · simp
        exact Nat.lt_succ_of_lt (hbound x h)
    · intro n gh idx hn
      by_cases hne : nm = n
      · subst hne
        rw [alookup_ainsert_self] at hn
        simp only [AnimationGraph.from_clip, Option.some.injEq, Prod.mk.injEq] at hn
        obtain ⟨h3, h4⟩ := hn
        subst h3
        subst h4
        refine ⟨⟨[AnimationNode.blend,
            AnimationNode.clipNode (q ++ "#Animation0")]⟩, ?_, by simp⟩
        simpa [AnimationGraph.from_clip] using
          alookup_ainsert_self w.nextGraph
            (AnimationGraph.from_clip (q ++ "#Animation0")).1 w.graphs
      · rw [alookup_ainsert_ne _ _ hne] at hn
        obtain ⟨g, hg, hidx⟩ := hvalid n gh idx hn
        have hlt : gh < w.nextGraph := by
          have := hbound (gh, g) (alookup_mem hg)
          simpa using this
        refine ⟨g, ?_, hidx⟩
        simpa [alookup_ainsert_ne _ _ (by omega : w.nextGraph ≠ gh)] using hg

theorem loadAnims_length_animations (cid : String) (l : List (String × String)) (w : World)
    (c : Character) (hnd : (l.map Prod.fst).Nodup)
    (hfresh : ∀ n ∈ l.map Prod.fst, alookup n c.animations = none) :
    (loadAnims cid l (w, c)).2.animations.length = c.animations.length + l.length := by
  induction l generalizing w c with
  | nil => simp [loadAnims]
  | cons hd tl ih =>
    obtain ⟨nm, q⟩ := hd
    simp only [List.map_cons, List.nodup_cons] at hnd
    simp only [loadAnims, World.issueLoad, World.addGraph]
    rw [ih _ _ hnd.2]
    · rw [length_ainsert_of_none _ (hfresh nm (by simp))]
      simp
      omega
    · intro n hn
      rw [alookup_ainsert_ne _ _ (fun he => hnd.1 (by rw [he]; exact hn))]
      exact hfresh n (by simp [hn])

theorem ocdlLoaded_fields (w : World) (cd : CharacterData) (ch : Character) :
    (ocdlLoaded w cd ch).1.assets = w.assets ∧
    (ocdlLoaded w cd ch).1.characters = w.characters ∧
    (ocdlLoaded w cd ch).1.issuedLoads =
      (w.issuedLoads ++ [⟨LoadKind.model, cd.id, cd.model_scene_path⟩]) ++
        cd.animation_paths.map (clipReq cd.id) ∧
    (ocdlLoaded w cd ch).2.data = ch.data := by
  have h := loadAnims_frame cd.id cd.animation_paths
    ((w.issueLoad ⟨LoadKind.model, cd.id, cd.model_scene_path⟩).spawnScene ch.data) ch
  have h₂ := loadAnims_issuedLoads cd.id cd.animation_paths
    ((w.issueLoad ⟨LoadKind.model, cd.id, cd.model_scene_path⟩).spawnScene ch.data) ch
  simp [World.issueLoad, World.spawnScene] at h h₂
  exact ⟨by simpa [ocdlLoaded] using h.1, by simpa [ocdlLoaded] using h.2.1,
    by simpa [ocdlLoaded] using h₂, by simpa [ocdlLoaded] using h.2.2.2.2.2.2.2.2⟩

theorem ocdlResult_characters (w : World) (cd : CharacterData) (ch : Character) :
    (ocdlResult w cd ch).characters =
      ainsert cd.id (ocdlLoaded w cd ch).2 w.characters := by
  rw [ocdlResult]
  simp [(ocdlLoaded_fields w cd ch).2.1]

theorem ocdlResult_assets (w : World) (cd : CharacterData) (ch : Character) :
    (ocdlResult w cd ch).assets = w.assets := by
  rw [ocdlResult]
  simp [(ocdlLoaded_fields w cd ch).1]

theorem ocdlResult_issuedLoads (w : World) (cd : CharacterData) (ch : Character) :
    (ocdlResult w cd ch).issuedLoads =
      (w.issuedLoads ++ [⟨LoadKind.model, cd.id, cd.model_scene_path⟩]) ++
        cd.animation_paths.map (clipReq cd.id) := by
  rw [ocdlResult]
  simp [(ocdlLoaded_fields w cd ch).2.2.1]

theorem ocdlResult_graphs (w : World) (cd : CharacterData) (ch : Character) :
    (ocdlResult w cd ch).graphs = (ocdlLoaded w cd ch).1.graphs := rfl

/-- C9: when the orchestrator is triggered it fails fast, before any
state mutation, with `MissingAsset` when the definition is not
resolvable from the asset id, and with `UnregisteredCharacter` when no
record exists for the definition's character id; in either case the
whole world — registry and issued loads included — is unchanged. -/
theorem c9_orchestrator_fails_fast (w : World) (assetId : String) :
    (alookup assetId w.assets = none →
      on_character_data_loaded w assetId = Except.error PipelineError.MissingAsset ∧
      applyOp (Op.dataLoaded assetId) w = w) ∧
    (∀ cd, alookup assetId w.assets = some cd →
      alookup cd.id w.characters = none →
      on_character_data_loaded w assetId = Except.error PipelineError.UnregisteredCharacter ∧
      applyOp (Op.dataLoaded assetId) w = w) := by
  constructor
  · intro h
    refine ⟨by simp [on_character_data_loaded, h], ?_⟩
    simp [applyOp, on_character_data_loaded, h, Except.toOption]
  · intro cd ha hc
    refine ⟨by simp [on_character_data_loaded, ha, hc], ?_⟩
    simp [applyOp, on_character_data_loaded, ha, hc, Except.toOption]

/-- The character definition used by the repository's own data
(`characters/mutant.json` references a model and an idle/walk pair). -/
def cdMutant : CharacterData :=
  ⟨"mutant", "models/mutant", [("idle", "anims/idle"), ("walk", "anims/walk")]⟩

/-- World after registration (`setup`) and after the definition asset
became resolvable. -/
def Wreg : World :=
  applyOp (Op.assetResolved "characters/mutant.json" cdMutant)
    (applyOp (Op.register "mutant" "characters/mutant.json") World.empty)

/-- World after the first delivery of Load-Complete for the definition. -/
def Wonce : World := applyOp (Op.dataLoaded "characters/mutant.json") Wreg

/-- World after a second delivery of the same Load-Complete event. -/
def Wtwice : World := applyOp (Op.dataLoaded "characters/mutant.json") Wonce

/-- A world holding a resolvable definition for an unregistered id. -/
def Wunreg : World :=
  applyOp (Op.assetResolved "characters/a.json" ⟨"alien", "models/alien", []⟩) World.empty

/-- Witness for C9: both failure branches at concrete worlds. -/
theorem c9_orchestrator_fails_fast_witness :
    (on_character_data_loaded World.empty "x" = Except.error PipelineError.MissingAsset ∧
      applyOp (Op.dataLoaded "x") World.empty = World.empty) ∧
    (on_character_data_loaded Wunreg "characters/a.json" =
        Except.error PipelineError.UnregisteredCharacter ∧
      applyOp (Op.dataLoaded "characters/a.json") Wunreg = Wunreg) :=
  ⟨(c9_orchestrator_fails_fast World.empty "x").1 (by decide),
   (c9_orchestrator_fails_fast Wunreg "characters/a.json").2
     ⟨"alien", "models/alien", []⟩ (by decide) (by decide)⟩

/-- C6: after one run of the orchestrator on a loaded definition whose
record is still empty (as registration left it), the record holds
exactly one animation entry per distinct key of `animation_paths`; each
entry pairs a graph handle with node index 1 — the entry index
`AnimationGraph::from_clip` returns — and the graph stored under that
handle is the single-clip graph built synchronously around the clip
locator.  No hypothesis about the clip asset being loaded is needed:
graph construction does not wait for clip readiness (the model does not
even track clip assets), and the record keeps the definition handle
(`ch2.data = ch.data`). -/
theorem c6_record_population (w : World) (assetId : String) (cd : CharacterData)
    (ch : Character) (w₂ : World)
    (ha : alookup assetId w.assets = some cd)
    (hc : alookup cd.id w.characters = some ch)
    (hemp : ch.animations = [])
    (hnd : (cd.animation_paths.map Prod.fst).Nodup)
    (hrun : on_character_data_loaded w assetId = Except.ok w₂) :
    ∃ ch2, alookup cd.id w₂.characters = some ch2 ∧
      ch2.data = ch.data ∧
      ch2.animations.length = cd.animation_paths.length ∧
      ∀ n p, (n, p) ∈ cd.animation_paths →
        ∃ gh, alookup n ch2.animations = some (gh, 1) ∧
          alookup gh w₂.graphs =
            some ⟨[AnimationNode.blend, AnimationNode.clipNode (p ++ "#Animation0")]⟩ := by
  simp [on_character_data_loaded, ha, hc] at hrun
  subst hrun
  refine ⟨(ocdlLoaded w cd ch).2, ?_, (ocdlLoaded_fields w cd ch).2.2.2, ?_, ?_⟩
  · rw [ocdlResult_characters]
    exact alookup_ainsert_self _ _ _
  · rw [ocdlLoaded]
    rw [loadAnims_length_animations _ _ _ _ hnd (by simp [hemp, alookup]), hemp]
    simp
  · intro n p hmem
    obtain ⟨gh, h₁, h₂⟩ := loadAnims_mem_animations cd.id cd.animation_paths
      ((w.issueLoad ⟨LoadKind.model, cd.id, cd.model_scene_path⟩).spawnScene ch.data) ch
      hnd hmem
    exact ⟨gh, by simpa [ocdlLoaded] using h₁, by simpa [ocdlResult_graphs, ocdlLoaded] using h₂⟩

/-- Witness for C6 on the repository's own two-animation definition. -/
theorem c6_record_population_witness :
    ∃ ch2, alookup cdMutant.id Wonce.characters = some ch2 ∧
      ch2.data = "characters/mutant.json" ∧
      ch2.animations.length = cdMutant.animation_paths.length ∧
      ∀ n p, (n, p) ∈ cdMutant.animation_paths →
        ∃ gh, alookup n ch2.animations = some (gh, 1) ∧
          alookup gh Wonce.graphs =
            some ⟨[AnimationNode.blend, AnimationNode.clipNode (p ++ "#Animation0")]⟩ :=
  c6_record_population Wreg "characters/mutant.json" cdMutant
    ⟨"characters/mutant.json", []⟩ Wonce (by decide) (by decide) rfl (by decide) rfl

/-- C2 is false as stated: re-delivering the Load-Complete event for the
already-processed definition is not a no-op on registry state — each
animation entry is overwritten with a freshly allocated graph handle
(graphs 0 and 1 become 2 and 3), and the same load requests are passed
to the asset server again (the request list grows). -/
theorem c2_counterexample :
    Wtwice.characters ≠ Wonce.characters ∧ Wtwice.issuedLoads ≠ Wonce.issuedLoads := by
  decide

/-- C2 amended: re-processing the same Load-Complete event leaves the
registry's entries unduplicated and issues no load for any new asset
identity: the registry's key set, the record's animation-name set, and
the set of issued load paths are all unchanged by the second run —
but the run is not a pointwise no-op, since each animation entry's
graph handle is replaced by a freshly allocated one. -/
theorem c2_amended_reprocessing (w : World) (assetId : String) (cd : CharacterData)
    (w₁ w₂ : World)
    (ha : alookup assetId w.assets = some cd)
    (h1 : on_character_data_loaded w assetId = Except.ok w₁)
    (h2 : on_character_data_loaded w₁ assetId = Except.ok w₂) :
    (∀ cid, (alookup cid w₂.characters).isSome = true ↔
      (alookup cid w₁.characters).isSome = true) ∧
    (∀ ch₁ ch₂, alookup cd.id w₁.characters = some ch₁ →
      alookup cd.id w₂.characters = some ch₂ →
      ∀ n, (alookup n ch₂.animations).isSome = true ↔
        (alookup n ch₁.animations).isSome = true) ∧
    (∀ p, p ∈ w₂.issuedLoads.map LoadReq.path ↔
      p ∈ w₁.issuedLoads.map LoadReq.path) := by
  cases hch : alookup cd.id w.characters with
  | none => simp [on_character_data_loaded, ha, hch] at h1
  | some ch =>
  simp [on_character_data_loaded, ha, hch] at h1
  subst h1
  have ha1 : alookup assetId (ocdlResult w cd ch).assets = some cd := by
    rw [ocdlResult_assets]; exact ha
  have hc1 : alookup cd.id (ocdlResult w cd ch).characters =
      some (ocdlLoaded w cd ch).2 := by
    rw [ocdlResult_characters]; exact alookup_ainsert_self _ _ _
  simp [on_character_data_loaded, ha1, hc1] at h2
  subst h2
  refine ⟨?_, ?_, ?_⟩
  · intro cid
    rw [ocdlResult_characters, isSome_alookup_ainsert]
    constructor
    · rintro (rfl | h)
      · simp [hc1]
      · exact h
    · exact Or.inr
  · intro ch₁ ch₂ hh1 hh2 n
    have e1 : (ocdlLoaded w cd ch).2 = ch₁ := by
      injection (hc1.symm.trans hh1)
    rw [ocdlResult_characters, alookup_ainsert_self] at hh2
    have e2 : (ocdlLoaded (ocdlResult w cd ch) cd (ocdlLoaded w cd ch).2).2 = ch₂ := by
      injection hh2
    rw [← e1, ← e2]
    rw [show (ocdlLoaded (ocdlResult w cd ch) cd (ocdlLoaded w cd ch).2) =
      loadAnims cd.id cd.animation_paths
        (((ocdlResult w cd ch).issueLoad
            ⟨LoadKind.model, cd.id, cd.model_scene_path⟩).spawnScene
          (ocdlLoaded w cd ch).2.data, (ocdlLoaded w cd ch).2) from rfl]
    rw [show (ocdlLoaded w cd ch) = loadAnims cd.id cd.animation_paths
        ((w.issueLoad ⟨LoadKind.model, cd.id, cd.model_scene_path⟩).spawnScene
          ch.data, ch) from rfl]
    rw [loadAnims_isSome_animations, loadAnims_isSome_animations]
    tauto
  · intro p
    rw [ocdlResult_issuedLoads, ocdlResult_issuedLoads]
    simp only [List.map_append, List.mem_append]
    tauto

/-- The mutant record after the first orchestrator run. -/
def chOnce : Character :=
  ⟨"characters/mutant.json", [("idle", (0, 1)), ("walk", (1, 1))]⟩

/-- The mutant record after the second orchestrator run: same keys,
fresh graph handles. -/
def chTwice : Character :=
  ⟨"characters/mutant.json", [("idle", (2, 1)), ("walk", (3, 1))]⟩

/-- Witness for the amended C2 at the repository's own definition. -/
theorem c2_amended_reprocessing_witness :
    ((alookup "mutant" Wtwice.characters).isSome = true ↔
      (alookup "mutant" Wonce.characters).isSome = true) ∧
    ((alookup "idle" chTwice.animations).isSome = true ↔
      (alookup "idle" chOnce.animations).isSome = true) ∧
    ("anims/idle#Animation0" ∈ Wtwice.issuedLoads.map LoadReq.path ↔
      "anims/idle#Animation0" ∈ Wonce.issuedLoads.map LoadReq.path) :=
  ⟨(c2_amended_reprocessing Wreg "characters/mutant.json" cdMutant Wonce Wtwice
      (by decide) rfl rfl).1 "mutant",
   (c2_amended_reprocessing Wreg "characters/mutant.json" cdMutant Wonce Wtwice
      (by decide) rfl rfl).2.1 chOnce chTwice (by decide) (by decide) "idle",
   (c2_amended_reprocessing Wreg "characters/mutant.json" cdMutant Wonce Wtwice
      (by decide) rfl rfl).2.2 "anims/idle#Animation0"⟩

theorem start_idle_loop_no_player (w : World) (cid : String) (ds : List Nat)
    (h : ∀ e ∈ ds, w.players.contains e = false) :
    start_idle_loop w cid ds = Except.ok w := by
  induction ds with
  | nil => rfl
  | cons e rest ih =>
    have he := h e (by simp)
    simp only [start_idle_loop, he, Bool.false_eq_true, if_false]
    exact ih (fun x hx => h x (by simp [hx]))

theorem start_idle_loop_first_player (w : World) (cid : String) (ds : List Nat)
    {e : Nat} {ch : Character} {gh idx : Nat}
    (hfind : ds.find? (fun x => w.players.contains x) = some e)
    (hc : alookup cid w.characters = some ch)
    (hi : alookup "idle" ch.animations = some (gh, idx)) :
    start_idle_loop w cid ds =
      Except.ok { w with playing := ainsert e (idx, true) w.playing,
                         attached := ainsert e gh w.attached } := by
  induction ds with
  | nil => simp at hfind
  | cons a rest ih =>
    by_cases hp : w.players.contains a = true
    · rw [List.find?_cons_of_pos _ (by simpa using hp)] at hfind
      injection hfind with he
      subst he
      simp only [start_idle_loop, hp, eq_self_iff_true, if_true, hc, hi]
    · rw [List.find?_cons_of_neg _ (by simpa using hp)] at hfind
      have hp2 : w.players.contains a = false := by simpa using hp
      simp only [start_idle_loop, hp2, Bool.false_eq_true, if_false]
      exact ih hfind

theorem start_idle_loop_missing_idle (w : World) (cid : String) (ds : List Nat)
    {e : Nat} {ch : Character}
    (hfind : ds.find? (fun x => w.players.contains x) = some e)
    (hc : alookup cid w.characters = some ch)
    (hi : alookup "idle" ch.animations = none) :
    start_idle_loop w cid ds = Except.error PipelineError.AnimationNotFound := by
  induction ds with
  | nil => simp at hfind
  | cons a rest ih =>
    by_cases hp : w.players.contains a = true
    · simp only [start_idle_loop, hp, eq_self_iff_true, if_true, hc, hi]
    · rw [List.find?_cons_of_neg _ (by simpa using hp)] at hfind
      have hp2 : w.players.contains a = false := by simpa using hp
      simp only [start_idle_loop, hp2, Bool.false_eq_true, if_false]
      exact ih hfind

theorem start_idle_loop_shape (w : World) (cid : String) (ds : List Nat) {w₂ : World}
    (h : start_idle_loop w cid ds = Except.ok w₂) :
    w₂ = w ∨ ∃ e gh idx, w₂ = { w with playing := ainsert e (idx, true) w.playing,
                                       attached := ainsert e gh w.attached } := by
  induction ds with
  | nil =>
    injection h with h
    exact Or.inl h.symm
  | cons a rest ih =>
    by_cases hp : w.players.contains a = true
    · simp only [start_idle_loop, hp, eq_self_iff_true, if_true] at h
      split at h
      · cases h
      · split at h
        · cases h
        · injection h with h
          exact Or.inr ⟨a, _, _, h.symm⟩
    · have hp2 : w.players.contains a = false := by simpa using hp
      simp only [start_idle_loop, hp2, Bool.false_eq_true, if_false] at h
      exact ih h

/-- C3: when the instantiated subtree contains a playback-capable entity
and the record carries an "idle" entry, the activator attaches the graph
and starts looping playback on exactly the first playback-capable entity
in the collaborator's traversal order (`World.descendants`, the
breadth-first order of `iter_descendants`): the final world differs from
the initial one only at that entity's playback state and attached graph,
so no activation happens past the first match. -/
theorem c3_first_match_activation (w : World) (root : Nat) (dh : String)
    (cd : CharacterData) (ch : Character) (e gh idx : Nat)
    (hm : alookup root w.scenes = some dh)
    (ha : alookup dh w.assets = some cd)
    (hc : alookup cd.id w.characters = some ch)
    (hi : alookup "idle" ch.animations = some (gh, idx))
    (hfind : (w.descendants root).find? (fun x => w.players.contains x) = some e) :
    start_idle w root =
      Except.ok { w with playing := ainsert e (idx, true) w.playing,
                         attached := ainsert e gh w.attached } := by
  simp only [start_idle, hm, ha]
  exact start_idle_loop_first_player w cd.id (w.descendants root) hfind hc hi

/-- Scene instantiated under the spawned root (entity 0): hierarchy
0 → [10, 11] and 10 → [12], players on 11 (depth 1) and 12 (depth 2);
the breadth-first traversal order is [10, 11, 12]. -/
def WsceneA : World :=
  applyOp (Op.addPlayer 12) (applyOp (Op.addPlayer 11)
    (applyOp (Op.attachChildren 10 [12]) (applyOp (Op.attachChildren 0 [10, 11]) Wonce)))

/-- Same hierarchy with players on 10 (depth 1) and 12 (depth 2). -/
def WsceneB : World :=
  applyOp (Op.addPlayer 12) (applyOp (Op.addPlayer 10)
    (applyOp (Op.attachChildren 10 [12]) (applyOp (Op.attachChildren 0 [10, 11]) Wonce)))

/-- Witness for C3: playback-capable entities at two different depths, in
two configurations; activation binds to the traversal-first one (11,
resp. 10), never to the deeper 12. -/
theorem c3_first_match_activation_witness :
    start_idle WsceneA 0 =
      Except.ok { WsceneA with playing := ainsert 11 (1, true) WsceneA.playing,
                               attached := ainsert 11 0 WsceneA.attached } ∧
    start_idle WsceneB 0 =
      Except.ok { WsceneB with playing := ainsert 10 (1, true) WsceneB.playing,
                               attached := ainsert 10 0 WsceneB.attached } :=
  ⟨c3_first_match_activation WsceneA 0 "characters/mutant.json" cdMutant chOnce 11 0 1
      (by decide) (by decide) (by decide) (by decide) (by decide),
   c3_first_match_activation WsceneB 0 "characters/mutant.json" cdMutant chOnce 10 0 1
      (by decide) (by decide) (by decide) (by decide) (by decide)⟩

/-- A definition without an "idle" animation. -/
def cdWalk : CharacterData := ⟨"walker", "models/walker", [("walk", "anims/walk")]⟩

/-- Walker registered and its definition resolvable. -/
def Vreg : World :=
  applyOp (Op.assetResolved "characters/walker.json" cdWalk)
    (applyOp (Op.register "walker" "characters/walker.json") World.empty)

/-- Walker world after orchestration. -/
def Vonce : World := applyOp (Op.dataLoaded "characters/walker.json") Vreg

/-- The walker's record after orchestration: no "idle" entry. -/
def chWalk : Character := ⟨"characters/walker.json", [("walk", (0, 1))]⟩

/-- Walker scene with a subtree (entity 5) without playback capability. -/
def Vnp : World := applyOp (Op.attachChildren 0 [5]) Vonce

/-- Walker scene whose subtree entity 5 is playback-capable. -/
def Vp : World := applyOp (Op.addPlayer 5) Vnp

/-- C4 is false as stated: at an activation whose record has no "idle"
entry but whose subtree has no playback-capable entity either, the
activator silently does nothing (`Except.ok` with the world unchanged)
instead of failing with `AnimationNotFound` — the subtree search
exhausts before the "idle" lookup is ever reached. -/
theorem c4_counterexample :
    alookup "walker" Vnp.characters = some chWalk ∧
    alookup "idle" chWalk.animations = none ∧
    start_idle Vnp 0 = Except.ok Vnp ∧
    start_idle Vnp 0 ≠ Except.error PipelineError.AnimationNotFound := by
  refine ⟨by decide, by decide, rfl, ?_⟩
  rw [show start_idle Vnp 0 = Except.ok Vnp from rfl]
  exact fun h => Except.noConfusion h

/-- C4 amended: for every activation in which a playback-capable entity
is found in the subtree and the record has no "idle" entry, the
activator fails deterministically with `AnimationNotFound` (it neither
silently no-ops nor hangs); with no playback-capable entity the missing
entry is never read and the activator is a silent no-op. -/
theorem c4_amended_missing_idle (w : World) (root : Nat) (dh : String)
    (cd : CharacterData) (ch : Character) (e : Nat)
    (hm : alookup root w.scenes = some dh)
    (ha : alookup dh w.assets = some cd)
    (hc : alookup cd.id w.characters = some ch)
    (hi : alookup "idle" ch.animations = none)
    (hfind : (w.descendants root).find? (fun x => w.players.contains x) = some e) :
    start_idle w root = Except.error PipelineError.AnimationNotFound := by
  simp only [start_idle, hm, ha]
  exact start_idle_loop_missing_idle w cd.id (w.descendants root) hfind hc hi

/-- Witness for the amended C4: the walker world with a playback-capable
entity and no "idle" entry fails with `AnimationNotFound`. -/
theorem c4_amended_missing_idle_witness :
    start_idle Vp 0 = Except.error PipelineError.AnimationNotFound :=
  c4_amended_missing_idle Vp 0 "characters/walker.json" cdWalk chWalk 5
    (by decide) (by decide) (by decide) (by decide) (by decide)

/-- C8: when the instantiated subtree contains no playback-capable
entity, the activator exhausts the traversal and silently does nothing:
the resulting world is the input world itself — no graph attached, no
playback started, no state mutated. -/
theorem c8_no_playback_silent_noop (w : World) (root : Nat) (dh : String)
    (cd : CharacterData)
    (hm : alookup root w.scenes = some dh)
    (ha : alookup dh w.assets = some cd)
    (hnone : ∀ e ∈ w.descendants root, w.players.contains e = false) :
    start_idle w root = Except.ok w := by
  simp only [start_idle, hm, ha]
  exact start_idle_loop_no_player w cd.id (w.descendants root) hnone

/-- Mutant scene with two playback-incapable descendants. -/
def W8 : World := applyOp (Op.attachChildren 0 [10, 11]) Wonce

/-- Witness for C8 on the mutant world. -/
theorem c8_no_playback_silent_noop_witness : start_idle W8 0 = Except.ok W8 :=
  c8_no_playback_silent_noop W8 0 "characters/mutant.json" cdMutant
    (by decide) (by decide) (by decide)

/-- C10 (implicit): the "idle" entry is read only after a
playback-capable entity has been found — when the subtree has none, the
absence of an "idle" entry in the record causes no failure and no state
change; the missing-animation check is unreachable. -/
theorem c10_missing_idle_unreachable (w : World) (root : Nat) (dh : String)
    (cd : CharacterData) (ch : Character)
    (hm : alookup root w.scenes = some dh)
    (ha : alookup dh w.assets = some cd)
    (_hc : alookup cd.id w.characters = some ch)
    (_hi : alookup "idle" ch.animations = none)
    (hnone : ∀ e ∈ w.descendants root, w.players.contains e = false) :
    start_idle w root = Except.ok w := by
  simp only [start_idle, hm, ha]
  exact start_idle_loop_no_player w cd.id (w.descendants root) hnone

/-- Witness for C10 on the walker world without playback entities. -/
theorem c10_missing_idle_unreachable_witness : start_idle Vnp 0 = Except.ok Vnp :=
  c10_missing_idle_unreachable Vnp 0 "characters/walker.json" cdWalk chWalk
    (by decide) (by decide) (by decide) (by decide) (by decide)

theorem ocdl_ok_inv {w : World} {assetId : String} {w₂ : World}
    (h : on_character_data_loaded w assetId = Except.ok w₂) :
    ∃ cd ch, alookup assetId w.assets = some cd ∧
      alookup cd.id w.characters = some ch ∧ w₂ = ocdlResult w cd ch := by
  cases ha : alookup assetId w.assets with
  | none => simp [on_character_data_loaded, ha] at h
  | some cd =>
    cases hc : alookup cd.id w.characters with
    | none => simp [on_character_data_loaded, ha, hc] at h
    | some ch =>
      simp only [on_character_data_loaded, ha, hc] at h
      injection h with h
      exact ⟨cd, ch, rfl, hc, h.symm⟩

theorem applyOp_dataLoaded_ok {w w₂ : World} {assetId : String}
    (h : on_character_data_loaded w assetId = Except.ok w₂) :
    applyOp (Op.dataLoaded assetId) w = w₂ := by
  simp [applyOp, h, Except.toOption]

theorem applyOp_dataLoaded_error {w : World} {assetId : String} {e : PipelineError}
    (h : on_character_data_loaded w assetId = Except.error e) :
    applyOp (Op.dataLoaded assetId) w = w := by
  simp [applyOp, h, Except.toOption]

theorem applyOp_sceneReady_ok {w w₂ : World} {root : Nat}
    (h : start_idle w root = Except.ok w₂) :
    applyOp (Op.sceneReady root) w = w₂ := by
  simp [applyOp, h, Except.toOption]

theorem applyOp_sceneReady_error {w : World} {root : Nat} {e : PipelineError}
    (h : start_idle w root = Except.error e) :
    applyOp (Op.sceneReady root) w = w := by
  simp [applyOp, h, Except.toOption]

theorem start_idle_ok_fields {w : World} {root : Nat} {w₂ : World}
    (h : start_idle w root = Except.ok w₂) :
    w₂.assets = w.assets ∧ w₂.characters = w.characters ∧
    w₂.issuedLoads = w.issuedLoads ∧ w₂.graphs = w.graphs ∧
    w₂.nextGraph = w.nextGraph := by
  cases hm : alookup root w.scenes with
  | none => simp [start_idle, hm] at h
  | some dh =>
    cases ha : alookup dh w.assets with
    | none => simp [start_idle, hm, ha] at h
    | some cd =>
      simp only [start_idle, hm, ha] at h
      rcases start_idle_loop_shape w cd.id (w.descendants root) h with rfl | ⟨e, gh, idx, rfl⟩
      · exact ⟨rfl, rfl, rfl, rfl, rfl⟩
      · exact ⟨rfl, rfl, rfl, rfl, rfl⟩

/-- The registry invariant of the specification, strengthened (third
conjunct) with the graph-handle freshness bound that makes it inductive:
every dependent (model/clip) load names a registered character; every
animation entry names a stored graph with a node at the recorded index;
every stored graph handle is below the allocation counter. -/
def PipelineInv (w : World) : Prop :=
  (∀ r ∈ w.issuedLoads, r.kind ≠ LoadKind.definitionKind →
    (alookup r.forId w.characters).isSome = true) ∧
  (∀ cid ch, alookup cid w.characters = some ch →
    ∀ n gh idx, alookup n ch.animations = some (gh, idx) →
      ∃ g, alookup gh w.graphs = some g ∧ idx < g.nodes.length) ∧
  (∀ q ∈ w.graphs, q.1 < w.nextGraph)

theorem inv_of_fields {w w₂ : World} (hch : w₂.characters = w.characters)
    (hil : w₂.issuedLoads = w.issuedLoads) (hg : w₂.graphs = w.graphs)
    (hn : w₂.nextGraph = w.nextGraph) (h : PipelineInv w) : PipelineInv w₂ := by
  obtain ⟨hl, ha, hb⟩ := h
  refine ⟨?_, ?_, ?_⟩
  · intro r hr hk
    rw [hch]
    exact hl r (hil ▸ hr) hk
  · intro cid ch hc n gh idx hn2
    rw [hg]
    exact ha cid ch (hch ▸ hc) n gh idx hn2
  · intro q hq
    rw [hn]
    exact hb q (hg ▸ hq)

theorem inv_register (w : World) (cid dataPath : String) (h : PipelineInv w) :
    PipelineInv (register w cid dataPath) := by
  obtain ⟨hl, ha, hb⟩ := h
  refine ⟨?_, ?_, ?_⟩
  · intro r hr hk
    simp only [register, World.issueLoad, List.mem_append, List.mem_singleton] at hr
    rcases hr with hr | hr
    · show (alookup r.forId (ainsert cid ⟨dataPath, []⟩ w.characters)).isSome = true
      rw [isSome_alookup_ainsert]
      exact Or.inr (hl r hr hk)
    · subst hr
      simp at hk
  · intro cid₂ ch hch n gh idx hn
    simp only [register, World.issueLoad] at hch
    by_cases he : cid = cid₂
    · subst he
      rw [alookup_ainsert_self] at hch
      injection hch with hch
      rw [← hch] at hn
      simp [alookup] at hn
    · rw [alookup_ainsert_ne _ _ he] at hch
      exact ha cid₂ ch hch n gh idx hn
  · intro q hq
    exact hb q hq

theorem inv_dataLoaded_ok {w : World} {cd : CharacterData} {ch : Character}
    (hc : alookup cd.id w.characters = some ch)
    (h : PipelineInv w) : PipelineInv (ocdlResult w cd ch) := by
  obtain ⟨hl, ha, hb⟩ := h
  refine ⟨?_, ?_, ?_⟩
  · intro r hr hk
    rw [ocdlResult_issuedLoads] at hr
    rw [ocdlResult_characters]
    rcases List.mem_append.mp hr with hr | hr
    · rcases List.mem_append.mp hr with hr | hr
      · rw [isSome_alookup_ainsert]
        exact Or.inr (hl r hr hk)
      · rw [List.mem_singleton] at hr
        subst hr
        rw [isSome_alookup_ainsert]
        exact Or.inl rfl
    · obtain ⟨np, hnp, hre⟩ := List.mem_map.mp hr
      subst hre
      rw [isSome_alookup_ainsert]
      exact Or.inl rfl
  · intro cid₂ ch₂ hch n gh idx hn
    rw [ocdlResult_characters] at hch
    by_cases he : cd.id = cid₂
    · subst he
      rw [alookup_ainsert_self] at hch
      injection hch with hch
      subst hch
      exact loadAnims_animations_valid cd.id cd.animation_paths
        ((w.issueLoad ⟨LoadKind.model, cd.id, cd.model_scene_path⟩).spawnScene ch.data)
        ch hb (ha cd.id ch hc) n gh idx hn
    · rw [alookup_ainsert_ne _ _ he] at hch
      obtain ⟨g, hg, hidx⟩ := ha cid₂ ch₂ hch n gh idx hn
      have hlt : gh < w.nextGraph := by
        have := hb (gh, g) (alookup_mem hg)
        simpa using this
      exact ⟨g, loadAnims_alookup_graphs cd.id cd.animation_paths
        ((w.issueLoad ⟨LoadKind.model, cd.id, cd.model_scene_path⟩).spawnScene ch.data)
        ch hlt hg, hidx⟩
  · intro q hq
    exact loadAnims_bound cd.id cd.animation_paths
      ((w.issueLoad ⟨LoadKind.model, cd.id, cd.model_scene_path⟩).spawnScene ch.data)
      ch hb q hq

theorem inv_step (op : Op) (w : World) (h : PipelineInv w) :
    PipelineInv (applyOp op w) := by
  cases op with
  | register cid p => exact inv_register w cid p h
  | assetResolved p cd => exact inv_of_fields rfl rfl rfl rfl h
  | attachChildren e cs => exact inv_of_fields rfl rfl rfl rfl h
  | addPlayer e => exact inv_of_fields rfl rfl rfl rfl h
  | dataLoaded assetId =>
    cases hres : on_character_data_loaded w assetId with
    | error e =>
      rw [applyOp_dataLoaded_error hres]
      exact h
    | ok w₂ =>
      rw [applyOp_dataLoaded_ok hres]
      obtain ⟨cd, ch, ha0, hc0, rfl⟩ := ocdl_ok_inv hres
      exact inv_dataLoaded_ok hc0 h
  | sceneReady root =>
    cases hres : start_idle w root with
    | error e =>
      rw [applyOp_sceneReady_error hres]
      exact h
    | ok w₂ =>
      rw [applyOp_sceneReady_ok hres]
      obtain ⟨-, hch, hil, hg, hn⟩ := start_idle_ok_fields hres
      exact inv_of_fields hch hil hg hn h

theorem inv_reachable {w : World} (h : Reachable w) : PipelineInv w := by
  induction h with
  | init =>
    refine ⟨?_, ?_, ?_⟩
    · intro r hr hk
      simp [World.empty] at hr
    · intro cid ch hch
      simp [World.empty, alookup] at hch
    · intro q hq
      simp [World.empty] at hq
  | step op hr ih => exact inv_step op _ ih

theorem characters_mono_step (op : Op) (w : World) (cid : String) (ch : Character)
    (hc : alookup cid w.characters = some ch)
    (hreg : ∀ cid₂ p, op = Op.register cid₂ p → cid₂ ≠ cid) :
    ∃ ch₂, alookup cid (applyOp op w).characters = some ch₂ ∧
      ∀ n, (alookup n ch.animations).isSome = true →
        (alookup n ch₂.animations).isSome = true := by
  cases op with
  | register cid₂ p =>
    refine ⟨ch, ?_, fun n h => h⟩
    show alookup cid (ainsert cid₂ ⟨p, []⟩ w.characters) = some ch
    rw [alookup_ainsert_ne _ _ (hreg cid₂ p rfl)]
    exact hc
  | assetResolved p cd => exact ⟨ch, hc, fun n h => h⟩
  | attachChildren e cs => exact ⟨ch, hc, fun n h => h⟩
  | addPlayer e => exact ⟨ch, hc, fun n h => h⟩
  | sceneReady root =>
    cases hres : start_idle w root with
    | error e =>
      rw [applyOp_sceneReady_error hres]
      exact ⟨ch, hc, fun n h => h⟩
    | ok w₂ =>
      rw [applyOp_sceneReady_ok hres]
      refine ⟨ch, ?_, fun n h => h⟩
      rw [(start_idle_ok_fields hres).2.1]
      exact hc
  | dataLoaded assetId =>
    cases hres : on_character_data_loaded w assetId with
    | error e =>
      rw [applyOp_dataLoaded_error hres]
      exact ⟨ch, hc, fun n h => h⟩
    | ok w₂ =>
      rw [applyOp_dataLoaded_ok hres]
      obtain ⟨cd, ch₀, ha0, hc0, rfl⟩ := ocdl_ok_inv hres
      by_cases he : cd.id = cid
      · subst he
        have hee : ch₀ = ch := by
          rw [hc0] at hc
          injection hc
        subst hee
        refine ⟨(ocdlLoaded w cd ch₀).2, ?_, ?_⟩
        · rw [ocdlResult_characters]
          exact alookup_ainsert_self _ _ _
        · intro n hmem
          have := (loadAnims_isSome_animations cd.id cd.animation_paths
            ((w.issueLoad ⟨LoadKind.model, cd.id, cd.model_scene_path⟩).spawnScene
              ch₀.data) ch₀ n).mpr (Or.inr hmem)
          exact this
      · refine ⟨ch, ?_, fun n h => h⟩
        rw [ocdlResult_characters, alookup_ainsert_ne _ _ he]
        exact hc

/-- C7: every reachable pipeline state satisfies the registry
invariants — (a) every dependent (model or clip) load names a character
id that has a registry record (and since records are never removed, the
record existed when the load was issued), and (b) every animation entry
names a stored graph containing a node at the recorded index; moreover
(c) no step of the pipeline shrinks a record's animation map: every
record and every animation key present before a step is still present
after it.  The side condition on (c) only excludes re-registering the
very same id, which the program performs once per id, at startup, before
any entry exists. -/
theorem c7_pipeline_invariants :
    (∀ w, Reachable w →
      (∀ r ∈ w.issuedLoads, r.kind ≠ LoadKind.definitionKind →
        (alookup r.forId w.characters).isSome = true) ∧
      (∀ cid ch, alookup cid w.characters = some ch →
        ∀ n gh idx, alookup n ch.animations = some (gh, idx) →
          ∃ g, alookup gh w.graphs = some g ∧ idx < g.nodes.length)) ∧
    (∀ op w cid ch, alookup cid w.characters = some ch →
      (∀ cid₂ p, op = Op.register cid₂ p → cid₂ ≠ cid) →
      ∃ ch₂, alookup cid (applyOp op w).characters = some ch₂ ∧
        ∀ n, (alookup n ch.animations).isSome = true →
          (alookup n ch₂.animations).isSome = true) :=
  ⟨fun _ h => ⟨(inv_reachable h).1, (inv_reachable h).2.1⟩, characters_mono_step⟩

/-- Witness for C7 on the reachable mutant world: the model load's
character is registered, the idle entry's graph has a node at index 1,
and a collaborator step keeps the record and its keys. -/
theorem c7_pipeline_invariants_witness :
    ((alookup (⟨LoadKind.model, "mutant", "models/mutant#Scene0"⟩ : LoadReq).forId
        Wonce.characters).isSome = true) ∧
    (∃ g, alookup 0 Wonce.graphs = some g ∧ 1 < g.nodes.length) ∧
    (∃ ch₂, alookup "mutant" (applyOp (Op.addPlayer 5) Wonce).characters = some ch₂ ∧
      ∀ n, (alookup n chOnce.animations).isSome = true →
        (alookup n ch₂.animations).isSome = true) := by
  have hr : Reachable Wonce :=
    Reachable.step (Op.dataLoaded "characters/mutant.json")
      (Reachable.step (Op.assetResolved "characters/mutant.json" cdMutant)
        (Reachable.step (Op.register "mutant" "characters/mutant.json") Reachable.init))
  refine ⟨?_, ?_, ?_⟩
  · exact (c7_pipeline_invariants.1 Wonce hr).1
      ⟨LoadKind.model, "mutant", "models/mutant#Scene0"⟩ (by decide) (by decide)
  · exact (c7_pipeline_invariants.1 Wonce hr).2 "mutant" chOnce (by decide) "idle" 0 1
      (by decide)
  · exact c7_pipeline_invariants.2 (Op.addPlayer 5) Wonce "mutant" chOnce (by decide)
      (fun cid₂ p h => Op.noConfusion h)
